import Mathlib

/-!
Verification of the FTCNN chip-tiling and geometry-alignment engine
(repository joeletho/FTCNN, file ftcnn.py) against its specification.

The Python source is shallowly embedded: machine floats that only ever flow
through equality comparisons and max-reductions are modelled by an inductive
value type with an explicit NaN; pixel indices and offsets are integers;
dataframe pipelines become list transformations; the global write lock and
the try/finally-style release become explicit lock-state passing, and the
two-writer concurrency claim is settled over an explicit step relation.
-/

namespace FTCNN

/-! ### Chip grid planner (create_chips_from_geotiff, ftcnn.py lines 503-554)

The planner derives integer pixel bounds (rmin, cmin)-(rmax, cmax) from the
raster's geographic corners (min/max reconciled), then strides rows by
`height` and columns by `width`, Python `range(lo, hi, step)` style, and for
each (row, col) builds a rasterio `Window(col_off=col, row_off=row,
width=min(width, cmax-col-1), height=min(height, rmax-row-1))`. -/

/-- Fuel-driven unfolding of Python `range(lo, hi, step)` for a positive
step: emit `lo` while `lo < hi`, advancing by `step`.  The fuel only needs
to be at least `(hi - lo).toNat`, which `chip_offsets` supplies. -/
def chip_offsets_aux (fuel : Nat) (lo hi step : Int) : List Int :=
  match fuel with
  | 0 => []
  | Nat.succ f => if lo < hi then lo :: chip_offsets_aux f (lo + step) hi step else []

/-- Python `range(lo, hi, step)` as used by the chip loops, for `0 < step`
(the source guards `width <= 0 or height <= 0` before the loops run). -/
def chip_offsets (lo hi step : Int) : List Int :=
  if 0 < step then chip_offsets_aux (hi - lo).toNat lo hi step else []

/-- A rasterio `Window(col_off, row_off, width, height)` in pixel space. -/
structure ChipWindow where
  col_off : Int
  row_off : Int
  width : Int
  height : Int
deriving DecidableEq, Repr

/-- The window-planning portion of `create_chips_from_geotiff`
(ftcnn.py lines 511-554): after min/max reconciliation of the index bounds
and the `width <= 0 or height <= 0` guard, one window per
(row, col) in the strided ranges, sized
`min(width, cmax - col - 1)` by `min(height, rmax - row - 1)`. -/
def create_chip_windows (rmin cmin rmax cmax w h : Int) : List ChipWindow :=
  if w ≤ 0 ∨ h ≤ 0 then []
  else
    (chip_offsets rmin rmax h).flatMap fun row =>
      (chip_offsets cmin cmax w).map fun col =>
        { col_off := col
          row_off := row
          width := min w (cmax - col - 1)
          height := min h (rmax - row - 1) }

/-- Pixel (r, c) lies inside the half-open pixel rectangle of a window. -/
def covers (win : ChipWindow) (r c : Int) : Bool :=
  decide (win.row_off ≤ r) && decide (r < win.row_off + win.height) &&
  decide (win.col_off ≤ c) && decide (c < win.col_off + win.width)

/-- One-dimensional coverage of coordinate `x` by the stride block starting
at offset `o`: the block spans `[o, o + min step (hi - o - 1))`. -/
def covers1 (step hi o x : Int) : Prop :=
  o ≤ x ∧ x < o + min step (hi - o - 1)

lemma chip_offsets_aux_bounds {step : Int}
    (fuel : Nat) (lo hi : Int) (hstep : 0 < step) :
    ∀ o ∈ chip_offsets_aux fuel lo hi step, lo ≤ o ∧ o < hi := by
  induction fuel generalizing lo with
  | zero => intro o ho; simp [chip_offsets_aux] at ho
  | succ f ih =>
    intro o ho
    by_cases hlt : lo < hi
    · rw [chip_offsets_aux, if_pos hlt] at ho
      rcases List.mem_cons.mp ho with rfl | htail
      · exact ⟨le_refl o, hlt⟩
      · have := ih (lo + step) o htail
        omega
    · rw [chip_offsets_aux, if_neg hlt] at ho
      simp at ho

lemma chip_offsets_aux_cover {step : Int} (hstep : 0 < step) :
    ∀ (fuel : Nat) (lo hi : Int), (hi - lo).toNat ≤ fuel →
      ∀ x : Int,
        (∃ o ∈ chip_offsets_aux fuel lo hi step, covers1 step hi o x) ↔
          lo ≤ x ∧ x < hi - 1 := by
  intro fuel
  induction fuel with
  | zero =>
    intro lo hi hfuel x
    have hle : hi ≤ lo := by omega
    simp only [chip_offsets_aux, List.not_mem_nil, false_and, exists_false,
      exists_prop, false_iff]
    omega
  | succ f ih =>
    intro lo hi hfuel x
    by_cases hlt : lo < hi
    · rw [chip_offsets_aux, if_pos hlt]
      have hrec := ih (lo + step) hi (by omega) x
      constructor
      · rintro ⟨o, ho, hcov⟩
        rcases List.mem_cons.mp ho with rfl | htail
        · rcases hcov with ⟨h1, h2⟩
          constructor
          · exact h1
          · omega
        · have := hrec.mp ⟨o, htail, hcov⟩
          omega
      · rintro ⟨hx1, hx2⟩
        by_cases hxs : x < lo + step
        · refine ⟨lo, List.mem_cons_self lo _, hx1, ?_⟩
          omega
        · obtain ⟨o, ho, hcov⟩ := hrec.mpr (by omega)
          exact ⟨o, List.mem_cons_of_mem lo ho, hcov⟩
    · rw [chip_offsets_aux, if_neg hlt]
      simp only [List.not_mem_nil, false_and, exists_false, exists_prop,
        false_iff]
      omega

lemma chip_offsets_aux_unique {step : Int} (hstep : 0 < step) :
    ∀ (fuel : Nat) (lo hi : Int) (o1 o2 x : Int),
      o1 ∈ chip_offsets_aux fuel lo hi step →
      o2 ∈ chip_offsets_aux fuel lo hi step →
      covers1 step hi o1 x → covers1 step hi o2 x → o1 = o2 := by
  intro fuel
  induction fuel with
  | zero => intro lo hi o1 o2 x h1; simp [chip_offsets_aux] at h1
  | succ f ih =>
    intro lo hi o1 o2 x h1 h2 hc1 hc2
    by_cases hlt : lo < hi
    · rw [chip_offsets_aux, if_pos hlt] at h1 h2
      rcases List.mem_cons.mp h1 with rfl | t1 <;>
        rcases List.mem_cons.mp h2 with h2e | t2
      · exact h2e.symm
      · exfalso
        have hb := chip_offsets_aux_bounds f (o1 + step) hi hstep o2 t2
        rcases hc1 with ⟨_, hc1b⟩
        rcases hc2 with ⟨hc2a, _⟩
        omega
      · exfalso
        subst h2e
        have hb := chip_offsets_aux_bounds f (o2 + step) hi hstep o1 t1
        rcases hc2 with ⟨_, hc2b⟩
        rcases hc1 with ⟨hc1a, _⟩
        omega
      · exact ih (lo + step) hi o1 o2 x t1 t2 hc1 hc2
    · rw [chip_offsets_aux, if_neg hlt] at h1
      simp at h1

lemma chip_offsets_cover {lo hi step : Int} (hstep : 0 < step) (x : Int) :
    (∃ o ∈ chip_offsets lo hi step, covers1 step hi o x) ↔
      lo ≤ x ∧ x < hi - 1 := by
  rw [chip_offsets, if_pos hstep]
  exact chip_offsets_aux_cover hstep _ lo hi (le_refl _) x

lemma chip_offsets_bounds {lo hi step : Int} (hstep : 0 < step) :
    ∀ o ∈ chip_offsets lo hi step, lo ≤ o ∧ o < hi := by
  rw [chip_offsets, if_pos hstep]
  exact chip_offsets_aux_bounds _ lo hi hstep

lemma chip_offsets_unique {lo hi step : Int} (hstep : 0 < step)
    {o1 o2 x : Int} (h1 : o1 ∈ chip_offsets lo hi step)
    (h2 : o2 ∈ chip_offsets lo hi step)
    (hc1 : covers1 step hi o1 x) (hc2 : covers1 step hi o2 x) : o1 = o2 := by
  rw [chip_offsets, if_pos hstep] at h1 h2
  exact chip_offsets_aux_unique hstep _ lo hi o1 o2 x h1 h2 hc1 hc2

lemma mem_create_chip_windows {rmin cmin rmax cmax w h : Int}
    {win : ChipWindow} :
    win ∈ create_chip_windows rmin cmin rmax cmax w h ↔
      ¬(w ≤ 0 ∨ h ≤ 0) ∧
        ∃ row ∈ chip_offsets rmin rmax h, ∃ col ∈ chip_offsets cmin cmax w,
          win = { col_off := col, row_off := row,
                  width := min w (cmax - col - 1),
                  height := min h (rmax - row - 1) } := by
  unfold create_chip_windows
  by_cases hg : w ≤ 0 ∨ h ≤ 0
  · simp [hg]
  · rw [if_neg hg]
    simp only [List.mem_flatMap, List.mem_map]
    constructor
    · rintro ⟨row, hrow, col, hcol, h1⟩
      exact ⟨hg, row, hrow, col, hcol, h1.symm⟩
    · rintro ⟨-, row, hrow, col, hcol, h1⟩
      exact ⟨row, hrow, col, hcol, h1.symm⟩

lemma covers_iff {win : ChipWindow} {r c : Int} :
    covers win r c = true ↔
      (win.row_off ≤ r ∧ r < win.row_off + win.height) ∧
        (win.col_off ≤ c ∧ c < win.col_off + win.width) := by
  simp [covers, and_assoc]

/-- C1 counterexample: tiling the raster index bounds of a 600x600-pixel
raster (bounds (0,0)-(600,600)) with nominal chip size (256,256) does give
exactly 9 windows, but the trailing row/column windows measure 87x87
(the code clamps to `rmax - row - 1`, one less than 600 mod 256 = 88);
no produced window has width or height 88, refuting the claimed sizes. -/
theorem chip_window_size_counterexample :
    (create_chip_windows 0 0 600 600 256 256).length = 9 ∧
    (⟨512, 512, 87, 87⟩ : ChipWindow) ∈ create_chip_windows 0 0 600 600 256 256 ∧
    (create_chip_windows 0 0 600 600 256 256).all
      (fun win => win.width != 88 && win.height != 88) = true := by
  decide

/-- C1 (amended): each produced chip window's width and height equal the
minimum of the nominal chip size and one LESS than the remaining pixels to
the raster's exclusive index bound (`min w (cmax - col - 1)`,
`min h (rmax - row - 1)`); tiling a 600x600-pixel raster with chip size
(256,256) produces exactly 3x3 = 9 windows, and the windows in the last
row/column are sized 87x87. -/
theorem chip_window_size_formula :
    (∀ rmin cmin rmax cmax w h : Int,
      ∀ win ∈ create_chip_windows rmin cmin rmax cmax w h,
        win.width = min w (cmax - win.col_off - 1) ∧
        win.height = min h (rmax - win.row_off - 1)) ∧
    (create_chip_windows 0 0 600 600 256 256).length = 9 ∧
    (create_chip_windows 0 0 600 600 256 256).all
      (fun win => (win.row_off != 512 || win.height == 87) &&
                  (win.col_off != 512 || win.width == 87)) = true := by
  refine ⟨?_, by decide, by decide⟩
  intro rmin cmin rmax cmax w h win hmem
  obtain ⟨-, row, _hrow, col, _hcol, rfl⟩ := mem_create_chip_windows.mp hmem
  exact ⟨rfl, rfl⟩

/-- Witness for C1: the size formula evaluated on the trailing window of the
600x600 / (256,256) grid. -/
theorem chip_window_size_formula_witness :
    (⟨512, 512, 87, 87⟩ : ChipWindow).width = min 256 ((600 : Int) - 512 - 1) :=
  (chip_window_size_formula.1 0 0 600 600 256 256 ⟨512, 512, 87, 87⟩
    (by decide)).1

/-- C2 counterexample: pixel (599, 0) lies inside the raster pixel bounds
(0,0)-(600,600), yet no window produced for chip size (256,256) covers it:
the produced windows leave the last pixel row and column uncovered, so they
do not partition the bounds without gaps. -/
theorem chip_grid_gap_counterexample :
    ((0 : Int) ≤ 599 ∧ (599 : Int) < 600 ∧ (0 : Int) ≤ 0 ∧ (0 : Int) < 600) ∧
    (create_chip_windows 0 0 600 600 256 256).all
      (fun win => !covers win 599 0) = true := by
  decide

/-- C2 (amended): for all raster pixel bounds and chip size (w,h) with
w,h > 0, every produced ChipWindow lies fully inside (rmin,cmin)-(rmax,cmax)
with nonnegative extents, no two distinct windows overlap, and the windows
cover exactly (rmin,cmin)-(rmax-1,cmax-1): every pixel of the bounds except
the last pixel row and the last pixel column, which remain uncovered. -/
theorem chip_grid_partition :
    (∀ rmin cmin rmax cmax w h : Int,
      ∀ win ∈ create_chip_windows rmin cmin rmax cmax w h,
        rmin ≤ win.row_off ∧ win.row_off + win.height ≤ rmax ∧
        cmin ≤ win.col_off ∧ win.col_off + win.width ≤ cmax ∧
        0 ≤ win.height ∧ 0 ≤ win.width) ∧
    (∀ rmin cmin rmax cmax w h : Int,
      ∀ w1 ∈ create_chip_windows rmin cmin rmax cmax w h,
        ∀ w2 ∈ create_chip_windows rmin cmin rmax cmax w h,
          ∀ r c : Int, covers w1 r c = true → covers w2 r c = true → w1 = w2) ∧
    (∀ rmin cmin rmax cmax w h : Int, 0 < w → 0 < h → ∀ r c : Int,
      ((∃ win ∈ create_chip_windows rmin cmin rmax cmax w h,
          covers win r c = true) ↔
        (rmin ≤ r ∧ r < rmax - 1 ∧ cmin ≤ c ∧ c < cmax - 1))) := by
  refine ⟨?_, ?_, ?_⟩
  · intro rmin cmin rmax cmax w h win hmem
    obtain ⟨hg, row, hrow, col, hcol, rfl⟩ := mem_create_chip_windows.mp hmem
    have hw : 0 < w := by omega
    have hh : 0 < h := by omega
    have hb1 := chip_offsets_bounds hh row hrow
    have hb2 := chip_offsets_bounds hw col hcol
    simp only
    omega
  · intro rmin cmin rmax cmax w h w1 h1 w2 h2 r c hc1 hc2
    obtain ⟨hg, row1, hrow1, col1, hcol1, rfl⟩ := mem_create_chip_windows.mp h1
    obtain ⟨-, row2, hrow2, col2, hcol2, rfl⟩ := mem_create_chip_windows.mp h2
    have hw : 0 < w := by omega
    have hh : 0 < h := by omega
    rw [covers_iff] at hc1 hc2
    have hrr : row1 = row2 := chip_offsets_unique hh hrow1 hrow2 hc1.1 hc2.1
    have hcc : col1 = col2 := chip_offsets_unique hw hcol1 hcol2 hc1.2 hc2.2
    subst hrr
    subst hcc
    rfl
  · intro rmin cmin rmax cmax w h hw hh r c
    constructor
    · rintro ⟨win, hwin, hcov⟩
      obtain ⟨-, row, hrow, col, hcol, rfl⟩ := mem_create_chip_windows.mp hwin
      rw [covers_iff] at hcov
      have h1 := (chip_offsets_cover hh r).mp ⟨row, hrow, hcov.1⟩
      have h2 := (chip_offsets_cover hw c).mp ⟨col, hcol, hcov.2⟩
      exact ⟨h1.1, h1.2, h2.1, h2.2⟩
    · rintro ⟨hr1, hr2, hc1, hc2⟩
      obtain ⟨row, hrow, hcovr⟩ := (chip_offsets_cover hh r).mpr ⟨hr1, hr2⟩
      obtain ⟨col, hcol, hcovc⟩ := (chip_offsets_cover hw c).mpr ⟨hc1, hc2⟩
      refine ⟨{ col_off := col, row_off := row,
                width := min w (cmax - col - 1),
                height := min h (rmax - row - 1) },
              mem_create_chip_windows.mpr ⟨by omega, row, hrow, col, hcol, rfl⟩,
              ?_⟩
      rw [covers_iff]
      exact ⟨hcovr, hcovc⟩

/-- Witness for C2: containment of the partition theorem evaluated on the
trailing window of the 600x600 / (256,256) grid. -/
theorem chip_grid_partition_witness :
    (0 : Int) ≤ (⟨512, 512, 87, 87⟩ : ChipWindow).row_off ∧
    (⟨512, 512, 87, 87⟩ : ChipWindow).row_off +
        (⟨512, 512, 87, 87⟩ : ChipWindow).height ≤ 600 ∧
    (0 : Int) ≤ (⟨512, 512, 87, 87⟩ : ChipWindow).col_off ∧
    (⟨512, 512, 87, 87⟩ : ChipWindow).col_off +
        (⟨512, 512, 87, 87⟩ : ChipWindow).width ≤ 600 ∧
    (0 : Int) ≤ (⟨512, 512, 87, 87⟩ : ChipWindow).height ∧
    (0 : Int) ≤ (⟨512, 512, 87, 87⟩ : ChipWindow).width :=
  chip_grid_partition.1 0 0 600 600 256 256 ⟨512, 512, 87, 87⟩ (by decide)

/-! ### Chip data extractor (create_chips_from_geotiff, ftcnn.py lines 555-570)

After reading a window the code executes
`chip_data[chip_data == src.nodata] = np.NaN` and then skips the chip when
`chip_data.shape[0] == 0 or chip_data.shape[1] == 0 or chip_data.max() == 0
or chip_data.max() == src.nodata` or when
`min(shape) / max(shape) < 0.1`.  Floats enter these checks only through
IEEE equality comparisons and a max-reduction, so they are embedded as
rationals plus an explicit NaN with IEEE comparison semantics
(NaN compares unequal to everything, including itself, and propagates
through numpy's max-reduction). -/

/-- A raster cell value: a finite number or the IEEE not-a-number marker. -/
inductive Val where
  | nan : Val
  | num : ℚ → Val
deriving DecidableEq, Repr

/-- IEEE `==` on cell values: NaN is unequal to everything, itself included. -/
def val_eq : Val → Val → Bool
  | Val.num a, Val.num b => a == b
  | _, _ => false

/-- numpy pairwise maximum: NaN propagates. -/
def np_maximum : Val → Val → Val
  | Val.nan, _ => Val.nan
  | _, Val.nan => Val.nan
  | Val.num a, Val.num b => Val.num (max a b)

/-- numpy `ndarray.max()`: the max-reduction over the buffer (NaN wins);
the source only evaluates it on buffers with both dimensions nonzero. -/
def np_max (vals : List Val) : Val :=
  match vals with
  | [] => Val.nan
  | v :: rest => rest.foldl np_maximum v

/-- A 2-D single-band read buffer in row-major order. -/
structure NpBuffer where
  nrows : Nat
  ncols : Nat
  vals : List Val
deriving DecidableEq, Repr

/-- Embedding of `chip_data[chip_data == src.nodata] = np.NaN`
(ftcnn.py line 556). -/
def mask_nodata (nodata : Val) (b : NpBuffer) : NpBuffer :=
  { b with vals := b.vals.map fun v => if val_eq v nodata then Val.nan else v }

/-- Embedding of the skip condition of ftcnn.py lines 559-569 as evaluated
by the code (on the already masked buffer, Python short-circuit order). -/
def chip_filter_condition (nodata : Val) (b : NpBuffer) : Bool :=
  if b.nrows == 0 || b.ncols == 0 then true
  else if val_eq (np_max b.vals) (Val.num 0) || val_eq (np_max b.vals) nodata
    then true
  else decide (((min b.nrows b.ncols : Nat) : ℚ) /
                 ((max b.nrows b.ncols : Nat) : ℚ) < 1 / 10)

/-- A window's chip survives extraction when, after no-data masking, the
skip condition is false (the chip is then written and appended,
ftcnn.py lines 570-583). -/
def chip_is_kept (nodata : Val) (raw : NpBuffer) : Bool :=
  !chip_filter_condition nodata (mask_nodata nodata raw)

/-- C3 (code bug): a 2x2 window whose pixels all equal the no-data sentinel
-9999 is KEPT by the extractor, because the code replaces no-data values
with NaN before testing `chip_data.max() == 0` and
`chip_data.max() == src.nodata`; the masked maximum is NaN, which IEEE
compares unequal to both, so the fully no-data chip is written and emitted,
contradicting the claim (and the dead `max == nodata` check shows the
intent was to skip it). -/
theorem all_nodata_chip_is_kept :
    chip_is_kept (Val.num (-9999))
        ⟨2, 2, [Val.num (-9999), Val.num (-9999),
                Val.num (-9999), Val.num (-9999)]⟩ = true ∧
    np_max (mask_nodata (Val.num (-9999))
        ⟨2, 2, [Val.num (-9999), Val.num (-9999),
                Val.num (-9999), Val.num (-9999)]⟩).vals = Val.nan := by
  constructor
  · rw [chip_is_kept]
    norm_num [chip_filter_condition, mask_nodata, np_max, np_maximum, val_eq]
  · norm_num [mask_nodata, np_max, np_maximum, val_eq]

/-! ### Pixel/geo coordinate translator
(geotiff_convert_geometry_to_pixels, ftcnn.py lines 1067-1087, and
clip_points, lines 1116-1124)

The shapely simplification and the raster's geo-to-pixel index lookup are
external collaborators and enter as function parameters; the translator
reverses the (row, col) pair returned by the lookup into (x=col, y=row) and
clips each point into [0, width-1] x [0, height-1]. -/

/-- Embedding of `clip_points` (ftcnn.py lines 1116-1124):
clamp each point into [0, width-1] x [0, height-1]. -/
def clip_points (points : List (Int × Int)) (shape : Int × Int) :
    List (Int × Int) :=
  points.map fun p =>
    (max 0 (min p.1 (shape.1 - 1)), max 0 (min p.2 (shape.2 - 1)))

/-- Embedding of `geotiff_convert_geometry_to_pixels`
(ftcnn.py lines 1067-1087) on a polygon's exterior ring: simplify
(external, tolerance 0.002, topology-preserving), map each vertex through
the raster's `src.index(x, y)` lookup with the returned (row, col) reversed
by `[::-1]` to (x=col, y=row), then clip into the raster shape. -/
def geotiff_convert_geometry_to_pixels
    (simplify : List (ℚ × ℚ) → List (ℚ × ℚ)) (index : ℚ → ℚ → Int × Int)
    (width height : Int) (exterior : List (ℚ × ℚ)) : List (Int × Int) :=
  let polygon := simplify exterior
  let pixels := polygon.map fun p => ((index p.1 p.2).2, (index p.1 p.2).1)
  clip_points pixels (width, height)

/-- C4: for every simplification, every index lookup, every raster of
positive width and height, and every exterior ring, every point returned by
the geo-to-pixel translation lies in [0, width-1] x [0, height-1]; the
operation is total, raising for no input. -/
theorem geo_to_pixels_clipped :
    ∀ (simplify : List (ℚ × ℚ) → List (ℚ × ℚ))
      (index : ℚ → ℚ → Int × Int) (width height : Int),
      1 ≤ width → 1 ≤ height →
      ∀ exterior : List (ℚ × ℚ),
        ∀ p ∈ geotiff_convert_geometry_to_pixels simplify index width height
            exterior,
          0 ≤ p.1 ∧ p.1 ≤ width - 1 ∧ 0 ≤ p.2 ∧ p.2 ≤ height - 1 := by
  intro simplify index width height hw hh exterior p hp
  unfold geotiff_convert_geometry_to_pixels clip_points at hp
  obtain ⟨q, -, rfl⟩ := List.mem_map.mp hp
  dsimp only
  omega

/-- Witness for C4: an index lookup answering (row 5, col 700) on a vertex
of a unit square at the corner of a 600x600 raster is reversed to
(x=700, y=5) and clipped to (599, 5), which lies inside the bounds. -/
theorem geo_to_pixels_clipped_witness :
    ((599, 5) ∈ geotiff_convert_geometry_to_pixels (fun l => l)
        (fun _ _ => (5, 700)) 600 600 [(0, 0)]) ∧
    (0 : Int) ≤ 599 ∧ (599 : Int) ≤ 600 - 1 ∧
    (0 : Int) ≤ 5 ∧ (5 : Int) ≤ 600 - 1 :=
  ⟨by decide,
   geo_to_pixels_clipped (fun l => l) (fun _ _ => (5, 700)) 600 600
     (by norm_num) (by norm_num) [(0, 0)] (599, 5) (by decide)⟩

/-! ### Chip writer and the global write lock
(write_chip, ftcnn.py lines 471-500; tiff_to_png, lines 1127-1193;
__request_writelock__/__free_writelock__, lines 37-50)

The `Lock` class is imported from `ftcnn.utils`, which is not among the
sources; per the spec it is a process-wide boolean flag with
is_locked/lock/unlock, acquired by busy-waiting until the flag is clear and
then setting it. -/

/-- The state of the global `_writelock`. -/
structure LockState where
  locked : Bool
deriving DecidableEq, Repr

/-- Modelled from the spec: the Lock class (ftcnn.utils, not in the
sources) is a boolean flag.  `__request_writelock__` (ftcnn.py lines 40-45)
busy-waits while `is_locked()` and then calls `lock()`; within a single
call the wait terminates exactly when the lock starts free, which the
theorems assume, after which the flag is set. -/
def request_writelock (_st : LockState) : LockState :=
  { locked := true }

/-- Modelled from the spec: `__free_writelock__` (ftcnn.py lines 48-50)
calls `unlock()`, clearing the flag, and returns None. -/
def free_writelock (_st : LockState) : LockState :=
  { locked := false }

/-- numpy `arr.reshape(shape)`: succeeds exactly when the element count
matches, else raises ValueError. -/
def np_reshape (vals : List Val) (shape : Nat × Nat) : Option NpBuffer :=
  if vals.length = shape.1 * shape.2 then some ⟨shape.1, shape.2, vals⟩
  else none

/-- The rasterio MemoryFile round trip of write_chip's in-memory branch
(ftcnn.py lines 485-491): write `data` as the single band of a dataset
whose metadata height/width were set to `data.shape` (lines 472-478), then
read band 1 back; the external encoder is lossless for this path, so the
decoded array has the same shape and values. -/
def memfile_write_read (data : NpBuffer) : NpBuffer :=
  ⟨data.nrows, data.ncols, data.vals⟩

/-- Embedding of `write_chip` (ftcnn.py lines 471-500) over path type `P`
and exception type `E`.  The guarded body either materializes the chip in
memory (`output_path is None`: encode, decode, reshape to `data.shape`) or
writes to disk (`disk_write` stands for the fallible external
`rasterio.open(output_path, "w").write`).  The writelock is acquired before
the body and, per the try/except, released on every path; a body exception
is re-raised after release (`Except.error`; `none` tags the reshape
ValueError, `some e` a propagated external error). -/
def write_chip {P E : Type} (data : NpBuffer) (output_path : Option P)
    (disk_write : Except E Unit) (st : LockState) :
    Except (Option E) (Option NpBuffer) × LockState :=
  let st1 := request_writelock st
  match output_path with
  | none =>
      match np_reshape (memfile_write_read data).vals
          (data.nrows, data.ncols) with
      | some arr => (Except.ok (some arr), free_writelock st1)
      | none => (Except.error none, free_writelock st1)
  | some _ =>
      match disk_write with
      | Except.ok _ => (Except.ok none, free_writelock st1)
      | Except.error e => (Except.error (some e), free_writelock st1)

/-- Embedding of `tiff_to_png` (ftcnn.py lines 1127-1193) over exception
type `E` and image type `I`.  The body computes `png_img` (the GDAL
read/normalize pipeline, fallible: `compute_png`); when an output path is
given it acquires the writelock, calls `skio.imsave` (fallible: `imsave`),
and frees the lock.  The except branch frees the lock if held and PRINTS
the exception to stderr instead of re-raising; the function then returns
whatever `png_img` holds (None when the failure preceded its assignment). -/
def tiff_to_png {E I : Type} (compute_png : Except E I)
    (imsave : I → Except E Unit) (out_path : Bool) (st : LockState) :
    Except E (Option I) × LockState :=
  match compute_png with
  | Except.error _ => (Except.ok none, st)
  | Except.ok img =>
      if out_path then
        let st1 := request_writelock st
        match imsave img with
        | Except.ok _ => (Except.ok (some img), free_writelock st1)
        | Except.error _ => (Except.ok (some img), free_writelock st1)
      else (Except.ok (some img), st)

/-- C9: write_chip with an output path returns None; without one it returns
the decoded pixel array reshaped to exactly the shape of the input data
buffer. -/
theorem write_chip_return_value :
    ∀ (P E : Type) (pathv : P) (dw : Except E Unit) (data : NpBuffer)
      (st : LockState),
      data.vals.length = data.nrows * data.ncols →
      (write_chip data (none : Option P) dw st).1 =
          Except.ok (some ⟨data.nrows, data.ncols, data.vals⟩) ∧
      (write_chip data (some pathv) (Except.ok () : Except E Unit) st).1 =
          Except.ok none := by
  intro P E pathv dw data st hwf
  constructor
  · simp [write_chip, np_reshape, memfile_write_read, hwf]
  · rfl

/-- Witness for C9: write_chip on a concrete 1x2 buffer, in-memory and
to-disk. -/
theorem write_chip_return_value_witness :
    (write_chip ⟨1, 2, [Val.num 0, Val.nan]⟩ (none : Option Nat)
        (Except.ok () : Except Unit Unit) ⟨false⟩).1 =
      Except.ok (some ⟨1, 2, [Val.num 0, Val.nan]⟩) ∧
    (write_chip ⟨1, 2, [Val.num 0, Val.nan]⟩ (some 7)
        (Except.ok () : Except Unit Unit) ⟨false⟩).1 = Except.ok none :=
  write_chip_return_value Nat Unit 7 (Except.ok ()) ⟨1, 2, [Val.num 0, Val.nan]⟩
    ⟨false⟩ rfl

/-- C5 counterexample: in `tiff_to_png` the guarded `imsave` raises while
the writelock is held; the lock is freed, but the exception is swallowed
(printed to stderr) and the call returns the computed image instead of
re-raising — refuting the claim that every write operation acquiring the
lock re-raises guarded exceptions after release. -/
theorem writelock_exception_swallowed :
    @tiff_to_png Unit Nat (Except.ok 7) (fun _ => Except.error ()) true
        ⟨false⟩ = (Except.ok (some 7), ⟨false⟩) :=
  rfl

/-- C5 (amended): both write operations release the writelock on every exit
path, including when the guarded operation raises; `write_chip` re-raises
the exception after release, but `tiff_to_png` catches it after releasing,
prints it, and returns normally (never re-raises). -/
theorem writelock_released_on_all_paths :
    (∀ (P E : Type) (data : NpBuffer) (out : Option P) (dw : Except E Unit)
        (st : LockState),
      ((write_chip data out dw st).2).locked = false ∧
      (∀ e : E, out.isSome = true → dw = Except.error e →
        (write_chip data out dw st).1 = Except.error (some e))) ∧
    (∀ (E I : Type) (cmp : Except E I) (sv : I → Except E Unit) (op : Bool)
        (st : LockState), st.locked = false →
      ((tiff_to_png cmp sv op st).2).locked = false ∧
      (∃ x, (tiff_to_png cmp sv op st).1 = Except.ok x)) := by
  constructor
  · intro P E data out dw st
    constructor
    · match out with
      | none =>
          rcases h : np_reshape (memfile_write_read data).vals
              (data.nrows, data.ncols) with _ | arr <;>
            simp [write_chip, h, free_writelock]
      | some p =>
          rcases dw with e | u <;> simp [write_chip, free_writelock]
    · intro e hsome hdw
      match out with
      | none => simp at hsome
      | some p => subst hdw; rfl
  · intro E I cmp sv op st hst
    match cmp with
    | Except.error e => exact ⟨hst, none, rfl⟩
    | Except.ok img =>
        match op with
        | false => exact ⟨hst, some img, rfl⟩
        | true =>
            rcases h : sv img with e | u <;>
              exact ⟨by simp [tiff_to_png, h, free_writelock],
                     some img, by simp [tiff_to_png, h]⟩

/-- Witness for C5: the release theorem evaluated on a concrete write_chip
call and a concrete tiff_to_png call starting from a free lock. -/
theorem writelock_released_witness :
    ((write_chip ⟨1, 1, [Val.nan]⟩ (none : Option Nat)
        (Except.ok () : Except Unit Unit) ⟨false⟩).2).locked = false ∧
    ((@tiff_to_png Unit Nat (Except.ok 3) (fun _ => Except.ok ()) true
        ⟨false⟩).2).locked = false :=
  ⟨(writelock_released_on_all_paths.1 Nat Unit ⟨1, 1, [Val.nan]⟩ none
      (Except.ok ()) ⟨false⟩).1,
   (writelock_released_on_all_paths.2 Unit Nat (Except.ok 3)
      (fun _ => Except.ok ()) true ⟨false⟩ rfl).1⟩

/-! ### Two concurrent writers and the busy-wait lock
(__request_writelock__, ftcnn.py lines 40-45, under the parallel extraction
of preprocess_ndvi_difference_geotiffs)

Each writer runs `while _writelock.is_locked(): sleep(1/50)` and then
`_writelock.lock()`; the check and the set are separate operations on the
shared boolean flag (Lock internals modelled from the spec).  Two writer
threads are modelled by program counters over the shared flag, with steps
interleaved arbitrarily. -/

/-- Program counter of one writer thread.
idle: before the is_locked() check; passed: observed the flag clear and
left the while loop; writing: executed lock() and entered the guarded
raster-encode; done: executed unlock(). -/
inductive WriterPc where
  | idle : WriterPc
  | passed : WriterPc
  | writing : WriterPc
  | done : WriterPc
deriving DecidableEq, Repr

/-- Shared state of the two writers: the global flag and both counters. -/
structure WritersState where
  locked : Bool
  t1 : WriterPc
  t2 : WriterPc
deriving DecidableEq, Repr

/-- One interleaved step of the two writers running
`__request_writelock__`; the is_locked() check (enabled only when the flag
is clear) and the subsequent lock() are separate steps, as in the source. -/
inductive WritersStep : WritersState → WritersState → Prop where
  | check1 (t2 : WriterPc) :
      WritersStep ⟨false, WriterPc.idle, t2⟩ ⟨false, WriterPc.passed, t2⟩
  | check2 (t1 : WriterPc) :
      WritersStep ⟨false, t1, WriterPc.idle⟩ ⟨false, t1, WriterPc.passed⟩
  | acquire1 (l : Bool) (t2 : WriterPc) :
      WritersStep ⟨l, WriterPc.passed, t2⟩ ⟨true, WriterPc.writing, t2⟩
  | acquire2 (l : Bool) (t1 : WriterPc) :
      WritersStep ⟨l, t1, WriterPc.passed⟩ ⟨true, t1, WriterPc.writing⟩
  | release1 (l : Bool) (t2 : WriterPc) :
      WritersStep ⟨l, WriterPc.writing, t2⟩ ⟨false, WriterPc.done, t2⟩
  | release2 (l : Bool) (t1 : WriterPc) :
      WritersStep ⟨l, t1, WriterPc.writing⟩ ⟨false, t1, WriterPc.done⟩

/-- Both writers start idle with the flag clear. -/
def writers_init : WritersState :=
  ⟨false, WriterPc.idle, WriterPc.idle⟩

/-- One interleaved step when the check and the set are instead a single
atomic test-and-set acquisition (the mutex the spec's design notes call
for). -/
inductive AtomicWritersStep : WritersState → WritersState → Prop where
  | acquire1 (t2 : WriterPc) :
      AtomicWritersStep ⟨false, WriterPc.idle, t2⟩
        ⟨true, WriterPc.writing, t2⟩
  | acquire2 (t1 : WriterPc) :
      AtomicWritersStep ⟨false, t1, WriterPc.idle⟩
        ⟨true, t1, WriterPc.writing⟩
  | release1 (l : Bool) (t2 : WriterPc) :
      AtomicWritersStep ⟨l, WriterPc.writing, t2⟩ ⟨false, WriterPc.done, t2⟩
  | release2 (l : Bool) (t1 : WriterPc) :
      AtomicWritersStep ⟨l, t1, WriterPc.writing⟩ ⟨false, t1, WriterPc.done⟩

/-- C6 counterexample: under the source's two-step acquisition the system
can reach a state in which BOTH writers are inside the guarded raster
encode: both observe the flag clear before either sets it, then both set
it.  Mutual exclusion of raster-encode operations is not guaranteed. -/
theorem both_writers_encoding_reachable :
    Relation.ReflTransGen WritersStep writers_init
      ⟨true, WriterPc.writing, WriterPc.writing⟩ := by
  have s1 : WritersStep writers_init ⟨false, WriterPc.passed, WriterPc.idle⟩ :=
    WritersStep.check1 WriterPc.idle
  have s2 : WritersStep ⟨false, WriterPc.passed, WriterPc.idle⟩
      ⟨false, WriterPc.passed, WriterPc.passed⟩ :=
    WritersStep.check2 WriterPc.passed
  have s3 : WritersStep ⟨false, WriterPc.passed, WriterPc.passed⟩
      ⟨true, WriterPc.writing, WriterPc.passed⟩ :=
    WritersStep.acquire1 false WriterPc.passed
  have s4 : WritersStep ⟨true, WriterPc.writing, WriterPc.passed⟩
      ⟨true, WriterPc.writing, WriterPc.writing⟩ :=
    WritersStep.acquire2 true WriterPc.writing
  exact Relation.ReflTransGen.head s1 (Relation.ReflTransGen.head s2
    (Relation.ReflTransGen.head s3 (Relation.ReflTransGen.single s4)))

/-- Invariant for the atomic-acquisition system: a writing thread holds the
set flag and excludes the other. -/
def writers_mutex_inv (s : WritersState) : Prop :=
  (s.t1 = WriterPc.writing → s.locked = true ∧ s.t2 ≠ WriterPc.writing) ∧
  (s.t2 = WriterPc.writing → s.locked = true ∧ s.t1 ≠ WriterPc.writing)

lemma atomic_step_preserves_inv {s s' : WritersState}
    (hs : writers_mutex_inv s) (hstep : AtomicWritersStep s s') :
    writers_mutex_inv s' := by
  cases hstep with
  | acquire1 t2 =>
      rcases hs with ⟨h1, h2⟩
      have ht2 : t2 ≠ WriterPc.writing := fun ht2 => by
        have := (h2 ht2).1
        simp at this
      exact ⟨fun _ => ⟨rfl, ht2⟩, fun ht2e => absurd ht2e ht2⟩
  | acquire2 t1 =>
      rcases hs with ⟨h1, h2⟩
      have ht1 : t1 ≠ WriterPc.writing := fun ht1 => by
        have := (h1 ht1).1
        simp at this
      exact ⟨fun ht1e => absurd ht1e ht1, fun _ => ⟨rfl, ht1⟩⟩
  | release1 l t2 =>
      rcases hs with ⟨h1, h2⟩
      exact ⟨fun h => WriterPc.noConfusion h,
             fun ht2 => absurd ht2 (h1 rfl).2⟩
  | release2 l t1 =>
      rcases hs with ⟨h1, h2⟩
      exact ⟨fun ht1 => absurd ht1 (h2 rfl).2,
             fun h => WriterPc.noConfusion h⟩

/-- C6 (amended): with an atomic test-and-set acquisition in place of the
separate check and set, every reachable state has at most one writer inside
the guarded raster encode. -/
theorem atomic_writelock_mutual_exclusion :
    ∀ s : WritersState,
      Relation.ReflTransGen AtomicWritersStep writers_init s →
      ¬(s.t1 = WriterPc.writing ∧ s.t2 = WriterPc.writing) := by
  have hinv : ∀ s : WritersState,
      Relation.ReflTransGen AtomicWritersStep writers_init s →
      writers_mutex_inv s := by
    intro s hreach
    induction hreach with
    | refl => exact ⟨fun h => by simp [writers_init] at h,
                     fun h => by simp [writers_init] at h⟩
    | tail _hsteps hstep ih => exact atomic_step_preserves_inv ih hstep
  intro s hreach ⟨h1, h2⟩
  exact ((hinv s hreach).1 h1).2 h2

/-- Witness for C6: mutual exclusion applied to the initial state. -/
theorem atomic_writelock_mutual_exclusion_witness :
    ¬(writers_init.t1 = WriterPc.writing ∧
      writers_init.t2 = WriterPc.writing) :=
  atomic_writelock_mutual_exclusion writers_init Relation.ReflTransGen.refl

/-! ### Geometry aligner and empty-geometry rows
(map_geometry_to_geotiffs, ftcnn.py lines 962-1022, and the
ignore_empty_geom filtering of preprocess_ndvi_difference_geotiffs,
lines 733-736)

For each chip raster the aligner selects the annotation geometries whose
shape intersects the chip's footprint polygon; each match yields one row
carrying the geometric intersection, and when no annotation intersects, one
row with the empty Polygon() placeholder is emitted; the frame is then
exploded and de-duplicated.  Shapely geometry is abstract here: the
geometry type, its intersects test, its intersection, the empty polygon and
the is_empty test enter as parameters (explode acts within multi-part
geometries only and keeps single and empty geometries as one row; pandas
drop_duplicates keeps the first duplicate where List.dedup keeps the last,
which changes only the order among duplicates, not membership or counts). -/

/-- Embedding of `map_geometry_to_geotiffs` over path type `P` and geometry
type `G`: one row per intersecting annotation per chip, or a single
empty-geometry row for a chip nothing intersects, de-duplicated. -/
def map_geometry_to_geotiffs {P G : Type} [DecidableEq P] [DecidableEq G]
    (intersects : G → G → Bool) (inter : G → G → G) (emptyPolygon : G)
    (annGeoms : List G) (chips : List (P × G)) : List (P × G) :=
  (chips.flatMap fun chip =>
    if (annGeoms.filter fun a => intersects a chip.2).isEmpty
    then [(chip.1, emptyPolygon)]
    else (annGeoms.filter fun a => intersects a chip.2).map
      fun a => (chip.1, inter a chip.2)).dedup

/-- Embedding of the `ignore_empty_geom` branch of
`preprocess_ndvi_difference_geotiffs` (ftcnn.py lines 733-736): drop every
row whose geometry is empty. -/
def drop_empty_geom_rows {P G : Type} (is_empty_fn : G → Bool)
    (rows : List (P × G)) : List (P × G) :=
  rows.filter fun r => !is_empty_fn r.2

lemma nodup_mem_singleton {α : Type} {l : List α} {a : α}
    (hnd : l.Nodup) (hmem : ∀ x, x ∈ l ↔ x = a) : l = [a] := by
  match l with
  | [] => exact absurd ((hmem a).mpr rfl) (List.not_mem_nil a)
  | x :: xs =>
      have hx : x = a := (hmem x).mp (List.mem_cons_self x xs)
      subst hx
      match xs with
      | [] => rfl
      | y :: ys =>
          have hy : y = x :=
            (hmem y).mp (List.mem_cons_of_mem x (List.mem_cons_self y ys))
          exact absurd (hy ▸ List.mem_cons_self y ys)
            (List.nodup_cons.mp hnd).1

lemma filter_dedup_single {α : Type} [DecidableEq α] {l : List α}
    {p : α → Bool} {a : α} (h : l.filter p = [a]) :
    l.dedup.filter p = [a] := by
  have hmem : ∀ x, x ∈ l.dedup.filter p ↔ x = a := by
    intro x
    rw [List.mem_filter, List.mem_dedup]
    constructor
    · rintro ⟨hx, hpx⟩
      have hx2 : x ∈ l.filter p := List.mem_filter.mpr ⟨hx, hpx⟩
      rw [h] at hx2
      simpa using hx2
    · intro hxa
      subst hxa
      have ha : x ∈ l.filter p := by
        rw [h]
        exact List.mem_cons_self x []
      exact List.mem_filter.mp ha
  exact nodup_mem_singleton (List.Nodup.filter p (List.nodup_dedup l)) hmem

lemma filter_flatMap_nil {α β : Type} (p : β → Bool) (f : α → List β)
    (l : List α) (h : ∀ y ∈ l, (f y).filter p = []) :
    (l.flatMap f).filter p = [] := by
  induction l with
  | nil => rfl
  | cons x xs ih =>
      rw [List.flatMap_cons, List.filter_append,
        h x (List.mem_cons_self x xs),
        ih fun y hy => h y (List.mem_cons_of_mem x hy)]
      rfl

lemma filter_flatMap_single {α β : Type} (p : β → Bool) (f : α → List β)
    (l : List α) (x : α) (hnd : l.Nodup) (hx : x ∈ l)
    (hother : ∀ y ∈ l, y ≠ x → (f y).filter p = []) :
    (l.flatMap f).filter p = (f x).filter p := by
  induction l with
  | nil => cases hx
  | cons z zs ih =>
      rw [List.flatMap_cons, List.filter_append]
      rcases List.mem_cons.mp hx with rfl | hxs
      · have hzs : (zs.flatMap f).filter p = [] := by
          apply filter_flatMap_nil
          intro y hy
          refine hother y (List.mem_cons_of_mem x hy) fun he => ?_
          exact (List.nodup_cons.mp hnd).1 (he ▸ hy)
        rw [hzs, List.append_nil]
      · have hz : (f z).filter p = [] := by
          refine hother z (List.mem_cons_self z zs) fun he => ?_
          exact (List.nodup_cons.mp hnd).1 (he ▸ hxs)
        rw [hz, List.nil_append]
        exact ih (List.nodup_cons.mp hnd).2 hxs
          fun y hy hne => hother y (List.mem_cons_of_mem z hy) hne

lemma map_geometry_row_fst {P G : Type} (intersects : G → G → Bool)
    (inter : G → G → G) (emptyPolygon : G) (annGeoms : List G) (c : P × G)
    {r : P × G}
    (hr : r ∈ (if (annGeoms.filter fun a => intersects a c.2).isEmpty
               then [(c.1, emptyPolygon)]
               else (annGeoms.filter fun a => intersects a c.2).map
                 fun a => (c.1, inter a c.2))) :
    r.1 = c.1 := by
  by_cases he : (annGeoms.filter fun a => intersects a c.2).isEmpty
  · rw [if_pos he, List.mem_singleton] at hr
    rw [hr]
  · rw [if_neg he] at hr
    obtain ⟨a, -, rfl⟩ := List.mem_map.mp hr
    rfl

/-- C7: a chip whose footprint intersects no annotation geometry of its
group yields exactly one row, carrying the empty-geometry placeholder, in
the mapped output; and when every annotation misses every chip, assembling
with ignore_empty_geom drops all those rows, leaving zero rows. -/
theorem empty_geometry_rows :
    ∀ (P G : Type) [DecidableEq P] [DecidableEq G]
      (intersects : G → G → Bool) (inter : G → G → G) (emptyPolygon : G)
      (is_empty_fn : G → Bool) (annGeoms : List G) (chips : List (P × G)),
      is_empty_fn emptyPolygon = true →
      (chips.map Prod.fst).Nodup →
      (∀ chip ∈ chips, (∀ a ∈ annGeoms, intersects a chip.2 = false) →
        (map_geometry_to_geotiffs intersects inter emptyPolygon annGeoms
            chips).filter (fun r => decide (r.1 = chip.1)) =
          [(chip.1, emptyPolygon)]) ∧
      ((∀ chip ∈ chips, ∀ a ∈ annGeoms, intersects a chip.2 = false) →
        drop_empty_geom_rows is_empty_fn
          (map_geometry_to_geotiffs intersects inter emptyPolygon annGeoms
            chips) = []) := by
  intro P G instP instG intersects inter emptyPolygon is_empty_fn annGeoms
    chips hempty hnd
  constructor
  · intro chip hchip hno
    have hchipnd : chips.Nodup := List.Nodup.of_map Prod.fst hnd
    have hfchip :
        (if (annGeoms.filter fun a => intersects a chip.2).isEmpty
         then [(chip.1, emptyPolygon)]
         else (annGeoms.filter fun a => intersects a chip.2).map
           fun a => (chip.1, inter a chip.2)) =
          [(chip.1, emptyPolygon)] := by
      have hhits : (annGeoms.filter fun a => intersects a chip.2) = [] :=
        List.filter_eq_nil_iff.mpr fun a ha => by
          simp [hno a ha]
      simp [hhits]
    have hraw :
        ((chips.flatMap fun c =>
            if (annGeoms.filter fun a => intersects a c.2).isEmpty
            then [(c.1, emptyPolygon)]
            else (annGeoms.filter fun a => intersects a c.2).map
              fun a => (c.1, inter a c.2)).filter
          fun r => decide (r.1 = chip.1)) = [(chip.1, emptyPolygon)] := by
      rw [filter_flatMap_single _ _ chips chip hchipnd hchip]
      · rw [hfchip]
        simp
      · intro y hy hne
        apply List.filter_eq_nil_iff.mpr
        intro r hr
        have hr1 : r.1 = y.1 :=
          map_geometry_row_fst intersects inter emptyPolygon annGeoms y hr
        have hy1 : y.1 ≠ chip.1 := fun he =>
          hne (List.inj_on_of_nodup_map hnd hy hchip he)
        simp [hr1, hy1]
    exact filter_dedup_single hraw
  · intro hall
    apply List.filter_eq_nil_iff.mpr
    intro r hr
    have hr2 : r ∈ chips.flatMap fun c =>
        if (annGeoms.filter fun a => intersects a c.2).isEmpty
        then [(c.1, emptyPolygon)]
        else (annGeoms.filter fun a => intersects a c.2).map
          fun a => (c.1, inter a c.2) :=
      List.mem_dedup.mp hr
    obtain ⟨c, hc, hrc⟩ := List.mem_flatMap.mp hr2
    have hhits : (annGeoms.filter fun a => intersects a c.2) = [] :=
      List.filter_eq_nil_iff.mpr fun a ha => by
        simp [hall c hc a ha]
    rw [hhits] at hrc
    simp only [List.isEmpty_nil, if_true, List.mem_singleton] at hrc
    rw [hrc]
    simp [hempty]

/-- Witness for C7: two chips, one annotation geometry that intersects
nothing; each chip gets exactly one empty row and the assembled set with
ignore_empty_geom is empty. -/
theorem empty_geometry_rows_witness :
    (map_geometry_to_geotiffs (fun _ _ => false) (fun a _ => a) 0 [5]
        [(1, 3), (2, 4)]).filter (fun r => decide (r.1 = 1)) = [(1, 0)] ∧
    drop_empty_geom_rows (fun g => g == 0)
      (map_geometry_to_geotiffs (fun _ _ => false) (fun a _ => a) 0 [5]
        [(1, 3), (2, 4)]) = [] :=
  ⟨(empty_geometry_rows Nat Nat (fun _ _ => false) (fun a _ => a) 0
      (fun g => g == 0) [5] [(1, 3), (2, 4)] rfl (by decide)).1 (1, 3)
      (by decide) (by decide),
   (empty_geometry_rows Nat Nat (fun _ _ => false) (fun a _ => a) 0
      (fun g => g == 0) [5] [(1, 3), (2, 4)] rfl (by decide)).2
      (by decide)⟩

/-! ### Filename convention (parse_filename, ftcnn.py lines 112-127)

`parse_filename` GENERATES the expected NDVI-difference filename from a
dataframe row's Subregion/StartYear/EndYear columns: a subregion ending in
a digit gets a plain underscore separator, a subregion ending in "E" has
that letter replaced by the "_Expanded_" segment.  Strings are embedded as
character lists. -/

/-- The columns of a dataframe row that `parse_filename` reads. -/
structure SeriesRow where
  Subregion : List Char
  StartYear : List Char
  EndYear : List Char
deriving DecidableEq, Repr

/-- Python `sep.join(parts)`. -/
def str_join (sep : List Char) : List (List Char) → List Char
  | [] => []
  | [x] => x
  | x :: xs => x ++ sep ++ str_join sep xs

/-- Embedding of `parse_filename` (ftcnn.py lines 112-127); `none` models
the IndexError Python raises on `filename[-1]` for an empty subregion. -/
def parse_filename (series : SeriesRow) : Option (List Char) :=
  match series.Subregion.getLast? with
  | none => none
  | some lastc =>
      let years_part := str_join ['t', 'o'] [series.StartYear, series.EndYear]
      let end_part := "NDVI_Difference.tif".toList
      let filename :=
        if lastc.isDigit then series.Subregion ++ ['_']
        else if lastc = 'E' then
          str_join ['_'] [series.Subregion.dropLast, "Expanded".toList, []]
        else series.Subregion
      let start_part := filename ++ years_part
      some (str_join ['_'] [start_part, end_part])

/-- C8: the row (Subregion "A12E", StartYear 2015, EndYear 2019) generates
exactly "A12_Expanded_2015to2019_NDVI_Difference.tif", and for any
subregion ending in a digit the generated name is the subregion, an
underscore, the year pair and the NDVI_Difference suffix, with no
"_Expanded" segment inserted. -/
theorem ndvi_filename_convention :
    parse_filename ⟨"A12E".toList, "2015".toList, "2019".toList⟩ =
      some "A12_Expanded_2015to2019_NDVI_Difference.tif".toList ∧
    ∀ (sub y1 y2 : List Char) (lastc : Char),
      sub.getLast? = some lastc → lastc.isDigit = true →
      parse_filename ⟨sub, y1, y2⟩ =
        some (sub ++ ['_'] ++ y1 ++ ['t', 'o'] ++ y2 ++ ['_'] ++
          "NDVI_Difference.tif".toList) := by
  constructor
  · decide
  · intro sub y1 y2 lastc hlast hdigit
    unfold parse_filename
    dsimp only
    rw [hlast]
    simp [hdigit, str_join, List.append_assoc]

/-- Witness for C8: the digit-ending case of the convention evaluated on
Subregion "A12", years 2015-2019. -/
theorem ndvi_filename_convention_witness :
    parse_filename ⟨"A12".toList, "2015".toList, "2019".toList⟩ =
      some ("A12".toList ++ ['_'] ++ "2015".toList ++ ['t', 'o'] ++
        "2019".toList ++ ['_'] ++ "NDVI_Difference.tif".toList) :=
  ndvi_filename_convention.2 "A12".toList "2015".toList "2019".toList '2'
    (by decide) (by decide)

/-! ### Default class encoder (encode_default_classes, ftcnn.py lines 103-109)

A row is (0, "Treatment") exactly when its geometry is present, non-empty
and of area strictly greater than 1, else (-1, "Background"). -/

/-- A row's geometry as the encoder inspects it: present or None, with
shapely's is_empty flag and area. -/
structure GeomRow where
  is_empty : Bool
  area : ℚ
deriving DecidableEq

/-- Embedding of `encode_default_classes` (ftcnn.py lines 103-109). -/
def encode_default_classes (geom : Option GeomRow) : Int × String :=
  match geom with
  | some g =>
      if !g.is_empty && decide ((1 : ℚ) < g.area) then (0, "Treatment")
      else (-1, "Background")
  | none => (-1, "Background")

/-- C10: the default class encoder returns (0, "Treatment") iff the row's
geometry is present, non-empty and of area strictly greater than 1, and
(-1, "Background") otherwise; in particular a present, non-empty geometry
of area at most 1 is classified Background. -/
theorem default_class_encoding :
    ∀ geom : Option GeomRow,
      (encode_default_classes geom = (0, "Treatment") ↔
        ∃ g, geom = some g ∧ g.is_empty = false ∧ 1 < g.area) ∧
      (encode_default_classes geom = (0, "Treatment") ∨
        encode_default_classes geom = (-1, "Background")) ∧
      (∀ g, geom = some g → g.is_empty = false → g.area ≤ 1 →
        encode_default_classes geom = (-1, "Background")) := by
  intro geom
  match geom with
  | none =>
      refine ⟨?_, Or.inr rfl, ?_⟩
      · simp [encode_default_classes]
      · intro g hg
        cases hg
  | some g =>
      rcases hb : (!g.is_empty && decide ((1 : ℚ) < g.area)) with _ | _
      · have henc : encode_default_classes (some g) = (-1, "Background") := by
          simp [encode_default_classes, hb]
        refine ⟨?_, Or.inr henc, fun g' hg' _ _ => henc⟩
        rw [henc]
        simp only [Prod.mk.injEq]
        constructor
        · rintro ⟨h0, -⟩
          cases h0
        · rintro ⟨g', hg', hie, har⟩
          injection hg' with hgg
          subst hgg
          rw [hie] at hb
          simp [har] at hb
      · have henc : encode_default_classes (some g) = (0, "Treatment") := by
          simp [encode_default_classes, hb]
        rw [Bool.and_eq_true] at hb
        rcases hb with ⟨hie, har⟩
        refine ⟨?_, Or.inl henc, ?_⟩
        · rw [henc]
          simp only [true_iff]
          exact ⟨g, rfl, by simpa using hie, by simpa using har⟩
        · intro g' hg' hie' har'
          injection hg' with hgg
          subst hgg
          have h1 : (1 : ℚ) < g.area := by simpa using har
          exact absurd har' (not_le.mpr h1)

/-- Witness for C10: a present, non-empty geometry of area exactly 1 is
classified Background. -/
theorem default_class_encoding_witness :
    encode_default_classes (some ⟨false, 1⟩) = (-1, "Background") :=
  (default_class_encoding (some ⟨false, 1⟩)).2.2 ⟨false, 1⟩ rfl rfl
    (le_refl 1)

end FTCNN
